import Mathlib

/-!
Shallow embedding of the `logs` package of `reginald-project/reginald-sdk-go`
(file `src/logs/level.go`).

A Go `Level` is `type Level slog.Level`, an integer severity rank; we model it
as an unbounded `Int` (the spec only requires at least 32-bit range and none of
the verified properties exercise 64-bit wraparound).  Go strings and byte
slices are modelled as `List Char`; every string the code manipulates is ASCII.

The Go standard-library helpers the file calls (`strings.IndexAny`,
`strconv.Atoi`, `strings.ToUpper` via `Char.toUpper`, `strconv.Quote` /
`strconv.Unquote`, decimal rendering via `fmt.Sprintf "%+d"`) are modelled
below on the fragment of their behaviour the package exercises: all inputs and
outputs involved are ASCII, and quoting is modelled for double-quoted
envelopes whose contents need at most single-character escapes (the only form
`Level.MarshalJSON` ever produces).
-/

/-- Constant `LevelTrace Level = -8` from `level.go`.  The Go type `Level`
itself (an integer severity rank) is modelled as unbounded `Int`. -/
def LevelTrace : Int := -8

/-- Constant `LevelDebug = Level(slog.LevelDebug) = -4`. -/
def LevelDebug : Int := -4

/-- Constant `LevelInfo = Level(slog.LevelInfo) = 0`. -/
def LevelInfo : Int := 0

/-- Constant `LevelWarn = Level(slog.LevelWarn) = 4`. -/
def LevelWarn : Int := 4

/-- Constant `LevelError = Level(slog.LevelError) = 8`. -/
def LevelError : Int := 8

/-- Is the character one of the two sign characters searched for by
`strings.IndexAny(s, "+-")`? -/
def isSign (c : Char) : Bool := c == '+' || c == '-'

/-- Numeric value of an ASCII decimal digit character. -/
def charDigit (c : Char) : Nat := c.toNat - 48

/-- Little-endian base-10 digit list of `n`, computed with explicit fuel so
that it is structurally recursive (hence kernel-reducible); with fuel at least
`n` it agrees with Mathlib's `Nat.digits 10 n` (proved below). -/
def natDigitsRev : Nat → Nat → List Nat
  | _, 0 => []
  | 0, _ + 1 => []
  | f + 1, n + 1 => (n + 1) % 10 :: natDigitsRev f ((n + 1) / 10)

/-- Decimal rendering of a natural number, most significant digit first.
Models the digit part of Go's `fmt.Sprintf("%d", n)` / `strconv.Itoa`. -/
def natDecimalChars (n : Nat) : List Char :=
  if n = 0 then ['0'] else ((natDigitsRev n n).map Nat.digitChar).reverse

/-- Model of Go `fmt.Sprintf("%+d", v)`: the value rendered in decimal with an
explicit leading sign. -/
def sprintfPlusD (v : Int) : List Char :=
  (if v < 0 then '-' else '+') :: natDecimalChars v.natAbs

/-- The local helper `str` inside `Level.String`: the base name alone when the
offset is zero, otherwise the base name followed by the signed offset. -/
def levelStr (base : List Char) (val : Int) : List Char :=
  if val = 0 then base else base ++ sprintfPlusD val

/-- Go `Level.String` from `level.go`: pick the band by the source's ascending
threshold tests and render the name plus offset from that band's anchor. -/
def levelString (l : Int) : List Char :=
  if l < LevelDebug then levelStr "TRACE".data (l - LevelTrace)
  else if l < LevelInfo then levelStr "DEBUG".data (l - LevelDebug)
  else if l < LevelWarn then levelStr "INFO".data (l - LevelInfo)
  else if l < LevelError then levelStr "WARN".data (l - LevelWarn)
  else levelStr "ERROR".data (l - LevelError)

/-- Accumulating decimal reading of a digit string (the loop inside Go's
`strconv.Atoi`). -/
def parseNatDigits (cs : List Char) : Nat :=
  cs.foldl (fun a c => 10 * a + charDigit c) 0

/-- Model of Go `strconv.Atoi`: optional sign, then one or more decimal
digits; anything else is a failure (`none`).  The `int64` range check is not
modelled since `Level` is modelled as unbounded. -/
def atoi (cs : List Char) : Option Int :=
  match cs with
  | [] => none
  | c :: rest =>
      let ds := if c = '-' ∨ c = '+' then rest else cs
      if ds ≠ [] ∧ ds.all Char.isDigit then
        some (if c = '-' then -(parseNatDigits ds : Int) else (parseNatDigits ds : Int))
      else none

/-- Model of Go `strings.IndexAny(s, "+-")`: index of the first `+` or `-`
(`none` when absent, where Go returns `-1`). -/
def indexAny : List Char → Option Nat
  | [] => none
  | c :: rest => if isSign c then some 0 else (indexAny rest).map (· + 1)

/-- Errors produced by `Level.parse`: `errUnknownName` wrapped with the
unmatched name segment, or the `strconv.Atoi` failure wrapped with the whole
input string (`"logs: level string %q: %w"`). -/
inductive ParseErr where
  | unknownName (name : List Char)
  | numError (s : List Char)
deriving DecidableEq, Repr

/-- The switch at the end of `Level.parse`: match the upper-cased name segment
against the five anchor names; on a match the destination is set to the anchor
and then incremented by the offset, on no match the destination is untouched
and `errUnknownName` is returned with the original (not upper-cased) name. -/
def parseSwitch (l : Int) (name : List Char) (offset : Int) :
    Int × Option ParseErr :=
  let upper := name.map Char.toUpper
  if upper = "TRACE".data then (LevelTrace + offset, none)
  else if upper = "DEBUG".data then (LevelDebug + offset, none)
  else if upper = "INFO".data then (LevelInfo + offset, none)
  else if upper = "WARN".data then (LevelWarn + offset, none)
  else if upper = "ERROR".data then (LevelError + offset, none)
  else (l, some (.unknownName name))

/-- Go `Level.parse` as a state-passing function: `l` is the value the
destination `*Level` holds before the call, the result pairs the value it
holds after the call with the returned error (`none` for Go `nil`).  Mirrors
the source: split at the first `+`/`-` found by `strings.IndexAny`, run the
tail through `strconv.Atoi` (failure returns before any write), then run the
switch on the name segment. -/
def parseLevel (l : Int) (s : List Char) : Int × Option ParseErr :=
  match indexAny s with
  | some i =>
      match atoi (s.drop i) with
      | none => (l, some (.numError s))
      | some offset => parseSwitch l (s.take i) offset
  | none => parseSwitch l s 0

/-- Model of the per-character action of Go `strconv.Quote`: the double quote
and the backslash are escaped, every other character the package can produce
(printable ASCII) is copied verbatim.  Go would additionally escape
non-printable characters, which `Level.String` never emits. -/
def goQuoteChar (c : Char) : List Char :=
  if c = '"' ∨ c = '\\' then ['\\', c] else [c]

/-- Model of Go `strconv.Quote` / `strconv.AppendQuote(nil, s)` on the strings
this package produces: the contents, character-escaped, between double
quotes. -/
def goQuote (s : List Char) : List Char :=
  '"' :: (s.map goQuoteChar).flatten ++ ['"']

/-- Single-character escape sequences accepted by Go `strconv.Unquote` inside
a double-quoted string (hex, octal and Unicode escapes are not modelled; no
verified input uses them). -/
def escChar : Char → Option Char
  | 'a' => some (Char.ofNat 7)
  | 'b' => some (Char.ofNat 8)
  | 'f' => some (Char.ofNat 12)
  | 'n' => some (Char.ofNat 10)
  | 'r' => some (Char.ofNat 13)
  | 't' => some (Char.ofNat 9)
  | 'v' => some (Char.ofNat 11)
  | '\\' => some '\\'
  | '"' => some '"'
  | c => if c = Char.ofNat 39 then some (Char.ofNat 39) else none

/-- Contents of a double-quoted Go string after the opening quote: characters
up to an unescaped closing quote, rejecting a missing or early closing quote,
a raw newline, a dangling backslash and an unknown escape. -/
def unquoteInner : List Char → Option (List Char)
  | [] => none
  | c :: rest =>
      if c = '"' then if rest = [] then some [] else none
      else if c = '\n' then none
      else if c = '\\' then
        match rest with
        | [] => none
        | e :: rest' => (escChar e).bind fun ec => (unquoteInner rest').map (ec :: ·)
      else (unquoteInner rest).map (c :: ·)

/-- Model of Go `strconv.Unquote` restricted to double-quoted envelopes (the
only form `Level.MarshalJSON` produces; Go additionally accepts backquoted
strings and rune literals, which no verified property exercises). -/
def goUnquote (cs : List Char) : Option (List Char) :=
  match cs with
  | '"' :: rest => unquoteInner rest
  | _ => none

/-- Characters that pass through the quoting layer unchanged: anything other
than the double quote, the backslash and the newline.  Every character
`Level.String` emits is of this kind. -/
def safeChar (c : Char) : Bool := c != '"' && c != '\\' && c != '\n'

/-- Errors returned by `Level.UnmarshalJSON`: the wrapped `strconv.Unquote`
failure (the malformed-envelope case) or the wrapped `Level.parse` failure. -/
inductive JSONErr where
  | formatError
  | parseErr (e : ParseErr)
deriving DecidableEq, Repr

/-- Go `Level.MarshalJSON`: `strconv.AppendQuote(nil, l.String())` (the error
result is always `nil` in the source and is omitted). -/
def marshalJSON (l : Int) : List Char :=
  goQuote (levelString l)

/-- Go `Level.UnmarshalJSON` as a state-passing function on the destination
`*Level`: unquote the data, failing with the wrapped unquote error before
`parse` is reached, otherwise delegate to `Level.parse`. -/
def unmarshalJSON (l : Int) (data : List Char) : Int × Option JSONErr :=
  match goUnquote data with
  | none => (l, some .formatError)
  | some s =>
      let r := parseLevel l s
      (r.1, r.2.map JSONErr.parseErr)

/-- Go `Level.AppendText`: `append(b, l.String()...)` (error always `nil`). -/
def appendText (l : Int) (b : List Char) : List Char :=
  b ++ levelString l

/-- Go `Level.MarshalText`: `l.AppendText(nil)` (error always `nil`). -/
def marshalText (l : Int) : List Char :=
  appendText l []

/-- Go `Level.UnmarshalText` as a state-passing function on the destination
`*Level`: `l.parse(string(data))`. -/
def unmarshalText (l : Int) (data : List Char) : Int × Option ParseErr :=
  parseLevel l data

/-! ### Specification-side definitions

The following definitions restate sections 4.1 and 4.2 of the specification in
the spec's own words (greatest-anchor selection, split at the first sign
character, case-insensitive name table, signed decimal offset).  They are
deliberately written independently of the source-derived definitions above and
are compared with them in the refinement theorems below. -/

/-- Specification 4.1: the greatest anchor whose band contains `l` (values
below DEBUG's anchor select TRACE), paired with its upper-case name. -/
def anchorSpec (l : Int) : Int × List Char :=
  if LevelError ≤ l then (LevelError, "ERROR".data)
  else if LevelWarn ≤ l then (LevelWarn, "WARN".data)
  else if LevelInfo ≤ l then (LevelInfo, "INFO".data)
  else if LevelDebug ≤ l then (LevelDebug, "DEBUG".data)
  else (LevelTrace, "TRACE".data)

/-- Specification 4.1: rendering relative to a chosen anchor `a` named `nm`:
the name exactly when the offset `l - a` is zero, otherwise the name followed
by an explicit sign and the decimal magnitude of the offset. -/
def renderSpec (a : Int) (nm : List Char) (l : Int) : List Char :=
  if l - a = 0 then nm
  else if 0 < l - a then nm ++ '+' :: natDecimalChars (l - a).natAbs
  else nm ++ '-' :: natDecimalChars (l - a).natAbs

/-- Specification 4.1: the canonical encoding, built from the greatest-anchor
selection and the sign-and-magnitude rendering. -/
def levelStringSpec (l : Int) : List Char :=
  renderSpec (anchorSpec l).1 (anchorSpec l).2 l

/-- Specification 4.2 step 2: the offset segment parsed as a signed decimal
integer (optional sign, then one or more digits, value read via
`Nat.ofDigits`). -/
def parseSignedDecimal (cs : List Char) : Option Int :=
  let sign : Int := if cs.head? = some '-' then -1 else 1
  let mag := if cs.head? = some '-' ∨ cs.head? = some '+' then cs.tail else cs
  if mag ≠ [] ∧ mag.all Char.isDigit then
    some (sign * (Nat.ofDigits 10 ((mag.map charDigit).reverse) : Nat))
  else none

/-- Specification 4.2 step 3: the case-folded name segment looked up in the
anchor table. -/
def anchorValueOfName (u : List Char) : Option Int :=
  if u = "TRACE".data then some LevelTrace
  else if u = "DEBUG".data then some LevelDebug
  else if u = "INFO".data then some LevelInfo
  else if u = "WARN".data then some LevelWarn
  else if u = "ERROR".data then some LevelError
  else none

/-- Specification 4.2: parse, written from the spec's steps.  The name
segment is the longest sign-free prefix, the offset segment the rest; a
present offset segment must be a signed decimal integer (else the numeric
failure naming the input), the name is matched case-insensitively (else the
unknown-name failure naming the name segment), and the result is the anchor's
value plus the offset (zero when absent). -/
def levelParseSpec (s : List Char) : Except ParseErr Int :=
  match s.dropWhile fun c => !isSign c with
  | [] =>
      match anchorValueOfName ((s.takeWhile fun c => !isSign c).map Char.toUpper) with
      | some a => .ok (a + 0)
      | none => .error (.unknownName (s.takeWhile fun c => !isSign c))
  | offSeg =>
      match parseSignedDecimal offSeg with
      | none => .error (.numError s)
      | some off =>
          match anchorValueOfName ((s.takeWhile fun c => !isSign c).map Char.toUpper) with
          | some a => .ok (a + off)
          | none => .error (.unknownName (s.takeWhile fun c => !isSign c))


/-! ### Decimal digits: bridge to Mathlib and round-trip -/

theorem natDigitsRev_eq_digits : ∀ f n, n ≤ f → natDigitsRev f n = Nat.digits 10 n := by
  intro f
  induction f with
  | zero =>
      intro n hn
      interval_cases n
      simp [natDigitsRev]
  | succ f ih =>
      intro n hn
      match n with
      | 0 => simp [natDigitsRev]
      | n + 1 =>
          have hdiv : (n + 1) / 10 < n + 1 := Nat.div_lt_self (Nat.succ_pos n) (by norm_num)
          rw [natDigitsRev, ih ((n + 1) / 10) (by omega),
            Nat.digits_def' (by norm_num : (1 : ℕ) < 10) (Nat.succ_pos n)]

theorem charDigit_digitChar : ∀ d < 10, charDigit (Nat.digitChar d) = d := by decide

theorem digitChar_isDigit : ∀ d < 10, (Nat.digitChar d).isDigit = true := by decide

theorem digitChar_not_sign : ∀ d < 10, isSign (Nat.digitChar d) = false := by decide

theorem natDecimalChars_ne_nil (n : Nat) : natDecimalChars n ≠ [] := by
  unfold natDecimalChars
  split
  · simp
  · rename_i h
    rw [natDigitsRev_eq_digits n n le_rfl]
    simp [Nat.digits_ne_nil_iff_ne_zero, h]

theorem natDecimalChars_mem_digit (n : Nat) : ∀ c ∈ natDecimalChars n, c.isDigit = true := by
  unfold natDecimalChars
  split
  · intro c hc
    simp at hc
    subst hc
    decide
  · rw [natDigitsRev_eq_digits n n le_rfl]
    intro c hc
    simp only [List.mem_reverse, List.mem_map] at hc
    obtain ⟨d, hd, rfl⟩ := hc
    exact digitChar_isDigit d (Nat.digits_lt_base (by norm_num) hd)

theorem natDecimalChars_mem_not_sign (n : Nat) :
    ∀ c ∈ natDecimalChars n, isSign c = false := by
  unfold natDecimalChars
  split
  · intro c hc
    simp at hc
    subst hc
    decide
  · rw [natDigitsRev_eq_digits n n le_rfl]
    intro c hc
    simp only [List.mem_reverse, List.mem_map] at hc
    obtain ⟨d, hd, rfl⟩ := hc
    exact digitChar_not_sign d (Nat.digits_lt_base (by norm_num) hd)

theorem parseNatDigits_aux (ds : List Char) : ∀ a : Nat,
    ds.foldl (fun a c => 10 * a + charDigit c) a =
      Nat.ofDigits 10 ((ds.map charDigit).reverse) + a * 10 ^ ds.length := by
  induction ds with
  | nil => intro a; simp [Nat.ofDigits_nil]
  | cons c ds ih =>
      intro a
      simp only [List.foldl_cons, List.map_cons, List.reverse_cons, List.length_cons]
      rw [ih, Nat.ofDigits_append]
      simp [Nat.ofDigits_cons, Nat.ofDigits_nil]
      ring

theorem parseNat_eq_ofDigits (ds : List Char) :
    parseNatDigits ds = Nat.ofDigits 10 ((ds.map charDigit).reverse) := by
  unfold parseNatDigits
  rw [parseNatDigits_aux]
  simp

theorem parseNat_natDecimal (n : Nat) : parseNatDigits (natDecimalChars n) = n := by
  by_cases h : n = 0
  · subst h; rfl
  · unfold natDecimalChars
    rw [if_neg h, natDigitsRev_eq_digits n n le_rfl, parseNat_eq_ofDigits,
      List.map_reverse, List.reverse_reverse, List.map_map]
    have hmap : (Nat.digits 10 n).map (charDigit ∘ Nat.digitChar) = Nat.digits 10 n := by
      have : ∀ d ∈ Nat.digits 10 n, (charDigit ∘ Nat.digitChar) d = id d := by
        intro d hd
        exact charDigit_digitChar d (Nat.digits_lt_base (by norm_num) hd)
      rw [List.map_congr_left this, List.map_id]
    rw [hmap, Nat.ofDigits_digits]

/-! ### Atoi on rendered offsets, and IndexAny -/

theorem natDecimalChars_all_digit (n : Nat) :
    (natDecimalChars n).all Char.isDigit = true := by
  rw [List.all_eq_true]
  exact natDecimalChars_mem_digit n

theorem atoi_sprintfPlusD (v : Int) : atoi (sprintfPlusD v) = some v := by
  unfold sprintfPlusD
  have hcond : natDecimalChars v.natAbs ≠ [] ∧
      (natDecimalChars v.natAbs).all Char.isDigit = true :=
    ⟨natDecimalChars_ne_nil _, natDecimalChars_all_digit _⟩
  by_cases hv : v < 0
  · rw [if_pos hv]
    show (if natDecimalChars v.natAbs ≠ [] ∧ (natDecimalChars v.natAbs).all Char.isDigit
        then some (-(parseNatDigits (natDecimalChars v.natAbs) : Int)) else none) = some v
    rw [if_pos hcond, parseNat_natDecimal]
    congr 1
    omega
  · rw [if_neg hv]
    show (if natDecimalChars v.natAbs ≠ [] ∧ (natDecimalChars v.natAbs).all Char.isDigit
        then some ((parseNatDigits (natDecimalChars v.natAbs) : Int)) else none) = some v
    rw [if_pos hcond, parseNat_natDecimal]
    congr 1
    omega

theorem indexAny_eq_none (cs : List Char) (h : ∀ c ∈ cs, isSign c = false) :
    indexAny cs = none := by
  induction cs with
  | nil => rfl
  | cons c rest ih =>
      unfold indexAny
      rw [h c (List.mem_cons_self c rest), if_neg (by simp),
        ih fun x hx => h x (List.mem_cons_of_mem c hx)]
      rfl

theorem indexAny_append_sign (l1 : List Char) (c : Char) (l2 : List Char)
    (h1 : ∀ x ∈ l1, isSign x = false) (hc : isSign c = true) :
    indexAny (l1 ++ c :: l2) = some l1.length := by
  induction l1 with
  | nil =>
      show indexAny (c :: l2) = some 0
      unfold indexAny
      rw [hc]
      rfl
  | cons x rest ih =>
      show indexAny (x :: (rest ++ c :: l2)) = _
      unfold indexAny
      rw [h1 x (List.mem_cons_self x rest), if_neg (by simp),
        ih fun y hy => h1 y (List.mem_cons_of_mem x hy)]
      rfl

/-! ### Parse of the canonical encoding -/

theorem parseSwitch_trace (init : Int) (off : Int) :
    parseSwitch init "TRACE".data off = (LevelTrace + off, none) := rfl

theorem parseSwitch_debug (init : Int) (off : Int) :
    parseSwitch init "DEBUG".data off = (LevelDebug + off, none) := rfl

theorem parseSwitch_info (init : Int) (off : Int) :
    parseSwitch init "INFO".data off = (LevelInfo + off, none) := rfl

theorem parseSwitch_warn (init : Int) (off : Int) :
    parseSwitch init "WARN".data off = (LevelWarn + off, none) := rfl

theorem parseSwitch_error (init : Int) (off : Int) :
    parseSwitch init "ERROR".data off = (LevelError + off, none) := rfl

theorem parseLevel_levelStr (init : Int) (nm : List Char) (a v : Int)
    (hnm : ∀ c ∈ nm, isSign c = false)
    (hsw : ∀ init' off, parseSwitch init' nm off = (a + off, none)) :
    parseLevel init (levelStr nm v) = (a + v, none) := by
  unfold levelStr
  by_cases hv : v = 0
  · rw [if_pos hv]
    unfold parseLevel
    rw [indexAny_eq_none nm hnm]
    rw [hsw init 0, hv]
  · rw [if_neg hv]
    have hc : isSign (if v < 0 then '-' else '+') = true := by
      split <;> rfl
    have hidx : indexAny (nm ++ sprintfPlusD v) = some nm.length :=
      indexAny_append_sign nm _ (natDecimalChars v.natAbs) hnm hc
    unfold parseLevel
    rw [hidx]
    show (match atoi ((nm ++ sprintfPlusD v).drop nm.length) with
      | none => (init, some (.numError (nm ++ sprintfPlusD v)))
      | some offset => parseSwitch init ((nm ++ sprintfPlusD v).take nm.length) offset) =
        (a + v, none)
    rw [List.drop_left, List.take_left, atoi_sprintfPlusD]
    exact hsw init v

theorem parseLevel_levelString (init l : Int) :
    parseLevel init (levelString l) = (l, none) := by
  unfold levelString
  split_ifs with h1 h2 h3 h4
  · rw [parseLevel_levelStr init "TRACE".data LevelTrace (l - LevelTrace) (by decide)
      (parseSwitch_trace)]
    congr 1
    ring
  · rw [parseLevel_levelStr init "DEBUG".data LevelDebug (l - LevelDebug) (by decide)
      (parseSwitch_debug)]
    congr 1
    ring
  · rw [parseLevel_levelStr init "INFO".data LevelInfo (l - LevelInfo) (by decide)
      (parseSwitch_info)]
    congr 1
    ring
  · rw [parseLevel_levelStr init "WARN".data LevelWarn (l - LevelWarn) (by decide)
      (parseSwitch_warn)]
    congr 1
    ring
  · rw [parseLevel_levelStr init "ERROR".data LevelError (l - LevelError) (by decide)
      (parseSwitch_error)]
    congr 1
    ring

/-! ### Quoting round-trip and character safety -/

theorem goQuoteChar_safe (c : Char) (h : safeChar c = true) : goQuoteChar c = [c] := by
  simp only [safeChar, Bool.and_eq_true, bne_iff_ne] at h
  unfold goQuoteChar
  rw [if_neg]
  rintro (rfl | rfl)
  · exact h.1.1 rfl
  · exact h.1.2 rfl

theorem unquoteInner_append (s : List Char) (h : ∀ c ∈ s, safeChar c = true) :
    unquoteInner (s ++ ['"']) = some s := by
  induction s with
  | nil => rfl
  | cons c rest ih =>
      have hc := h c (List.mem_cons_self c rest)
      simp only [safeChar, Bool.and_eq_true, bne_iff_ne] at hc
      show unquoteInner (c :: (rest ++ ['"'])) = some (c :: rest)
      unfold unquoteInner
      rw [if_neg hc.1.1, if_neg hc.2, if_neg hc.1.2,
        ih fun x hx => h x (List.mem_cons_of_mem c hx)]
      rfl

theorem flatten_goQuoteChar (s : List Char) (h : ∀ c ∈ s, safeChar c = true) :
    (s.map goQuoteChar).flatten = s := by
  induction s with
  | nil => rfl
  | cons c rest ih =>
      show (goQuoteChar c :: rest.map goQuoteChar).flatten = c :: rest
      rw [List.flatten_cons, goQuoteChar_safe c (h c (List.mem_cons_self c rest)),
        ih fun x hx => h x (List.mem_cons_of_mem c hx)]
      rfl

theorem goUnquote_goQuote (s : List Char) (h : ∀ c ∈ s, safeChar c = true) :
    goUnquote (goQuote s) = some s := by
  show unquoteInner ((s.map goQuoteChar).flatten ++ ['"']) = some s
  rw [flatten_goQuoteChar s h]
  exact unquoteInner_append s h

theorem isDigit_safeChar (c : Char) (h : c.isDigit = true) : safeChar c = true := by
  rcases eq_or_ne c '"' with rfl | h1
  · exact absurd h (by decide)
  rcases eq_or_ne c '\\' with rfl | h2
  · exact absurd h (by decide)
  rcases eq_or_ne c '\n' with rfl | h3
  · exact absurd h (by decide)
  simp [safeChar, h1, h2, h3]

theorem levelStr_safe (base : List Char) (v : Int)
    (hb : ∀ c ∈ base, safeChar c = true) :
    ∀ c ∈ levelStr base v, safeChar c = true := by
  unfold levelStr
  split
  · exact hb
  · intro c hc
    rw [List.mem_append] at hc
    rcases hc with hc | hc
    · exact hb c hc
    · unfold sprintfPlusD at hc
      rcases List.mem_cons.mp hc with rfl | hc
      · split <;> rfl
      · exact isDigit_safeChar c (natDecimalChars_mem_digit _ c hc)

theorem levelString_safe (l : Int) : ∀ c ∈ levelString l, safeChar c = true := by
  unfold levelString
  split_ifs <;> exact levelStr_safe _ _ (by decide)

/-! ### The encoder agrees with the specification's greatest-anchor form -/

theorem levelStr_renderSpec (a : Int) (nm : List Char) (l : Int) :
    levelStr nm (l - a) = renderSpec a nm l := by
  unfold levelStr renderSpec sprintfPlusD
  split_ifs <;> first | rfl | omega

theorem anchorSpec_trace (l : Int) (h : l < LevelDebug) :
    anchorSpec l = (LevelTrace, "TRACE".data) := by
  have h' : l < -4 := h
  unfold anchorSpec
  rw [if_neg (show ¬LevelError ≤ l by show ¬(8 : Int) ≤ l; omega),
    if_neg (show ¬LevelWarn ≤ l by show ¬(4 : Int) ≤ l; omega),
    if_neg (show ¬LevelInfo ≤ l by show ¬(0 : Int) ≤ l; omega),
    if_neg (show ¬LevelDebug ≤ l by show ¬(-4 : Int) ≤ l; omega)]

theorem anchorSpec_debug (l : Int) (h1 : ¬l < LevelDebug) (h2 : l < LevelInfo) :
    anchorSpec l = (LevelDebug, "DEBUG".data) := by
  have h1' : ¬l < -4 := h1
  have h2' : l < 0 := h2
  unfold anchorSpec
  rw [if_neg (show ¬LevelError ≤ l by show ¬(8 : Int) ≤ l; omega),
    if_neg (show ¬LevelWarn ≤ l by show ¬(4 : Int) ≤ l; omega),
    if_neg (show ¬LevelInfo ≤ l by show ¬(0 : Int) ≤ l; omega),
    if_pos (show LevelDebug ≤ l by show (-4 : Int) ≤ l; omega)]

theorem anchorSpec_info (l : Int) (h1 : ¬l < LevelInfo) (h2 : l < LevelWarn) :
    anchorSpec l = (LevelInfo, "INFO".data) := by
  have h1' : ¬l < 0 := h1
  have h2' : l < 4 := h2
  unfold anchorSpec
  rw [if_neg (show ¬LevelError ≤ l by show ¬(8 : Int) ≤ l; omega),
    if_neg (show ¬LevelWarn ≤ l by show ¬(4 : Int) ≤ l; omega),
    if_pos (show LevelInfo ≤ l by show (0 : Int) ≤ l; omega)]

theorem anchorSpec_warn (l : Int) (h1 : ¬l < LevelWarn) (h2 : l < LevelError) :
    anchorSpec l = (LevelWarn, "WARN".data) := by
  have h1' : ¬l < 4 := h1
  have h2' : l < 8 := h2
  unfold anchorSpec
  rw [if_neg (show ¬LevelError ≤ l by show ¬(8 : Int) ≤ l; omega),
    if_pos (show LevelWarn ≤ l by show (4 : Int) ≤ l; omega)]

theorem anchorSpec_err (l : Int) (h1 : ¬l < LevelError) :
    anchorSpec l = (LevelError, "ERROR".data) := by
  have h1' : ¬l < 8 := h1
  unfold anchorSpec
  rw [if_pos (show LevelError ≤ l by show (8 : Int) ≤ l; omega)]

theorem levelString_eq_spec (l : Int) : levelString l = levelStringSpec l := by
  unfold levelString levelStringSpec
  split_ifs with h1 h2 h3 h4
  · rw [anchorSpec_trace l h1]
    exact levelStr_renderSpec LevelTrace "TRACE".data l
  · rw [anchorSpec_debug l h1 h2]
    exact levelStr_renderSpec LevelDebug "DEBUG".data l
  · rw [anchorSpec_info l h2 h3]
    exact levelStr_renderSpec LevelInfo "INFO".data l
  · rw [anchorSpec_warn l h3 h4]
    exact levelStr_renderSpec LevelWarn "WARN".data l
  · rw [anchorSpec_err l h4]
    exact levelStr_renderSpec LevelError "ERROR".data l

/-! ### The parser agrees with the specification's split-and-match form -/

theorem atoi_eq_parseSignedDecimal (cs : List Char) : atoi cs = parseSignedDecimal cs := by
  match cs with
  | [] => rfl
  | c :: rest =>
      by_cases h1 : c = '-'
      · subst h1
        show (if rest ≠ [] ∧ rest.all Char.isDigit then
            some (-(parseNatDigits rest : Int)) else none) =
          (if rest ≠ [] ∧ rest.all Char.isDigit then
            some ((-1 : Int) * (Nat.ofDigits 10 ((rest.map charDigit).reverse) : Nat))
          else none)
        split_ifs with h
        · rw [parseNat_eq_ofDigits]
          congr 1
          ring
        · rfl
      · by_cases h2 : c = '+'
        · subst h2
          show (if rest ≠ [] ∧ rest.all Char.isDigit then
              some ((parseNatDigits rest : Int)) else none) =
            (if rest ≠ [] ∧ rest.all Char.isDigit then
              some ((1 : Int) * (Nat.ofDigits 10 ((rest.map charDigit).reverse) : Nat))
            else none)
          split_ifs with h
          · rw [parseNat_eq_ofDigits]
            congr 1
            ring
          · rfl
        · have hno : ¬(c = '-' ∨ c = '+') := fun h => h.elim h1 h2
          simp only [atoi, parseSignedDecimal, List.head?_cons, List.tail_cons,
            Option.some.injEq]
          rw [if_neg hno, if_neg h1, if_neg h1]
          split_ifs with h
          · rw [parseNat_eq_ofDigits]
            congr 1
            ring
          · rfl

theorem takeWhile_of_indexAny_none (s : List Char) (h : indexAny s = none) :
    s.takeWhile (fun c => !isSign c) = s ∧ s.dropWhile (fun c => !isSign c) = [] := by
  induction s with
  | nil => exact ⟨rfl, rfl⟩
  | cons c rest ih =>
      unfold indexAny at h
      by_cases hc : isSign c = true
      · rw [if_pos hc] at h
        simp at h
      · rw [if_neg hc] at h
        have h' : indexAny rest = none := by
          cases hr : indexAny rest
          · rfl
          · rw [hr] at h
            simp at h
        obtain ⟨h1, h2⟩ := ih h'
        have hcb : (fun c => !isSign c) c = true := by
          simp only [Bool.not_eq_true] at hc
          simp [hc]
        exact ⟨by rw [@List.takeWhile_cons_of_pos _ (fun c => !isSign c) c rest hcb, h1],
          by rw [@List.dropWhile_cons_of_pos _ (fun c => !isSign c) c rest hcb, h2]⟩

theorem take_drop_of_indexAny_some (s : List Char) : ∀ i, indexAny s = some i →
    s.takeWhile (fun c => !isSign c) = s.take i ∧
      s.dropWhile (fun c => !isSign c) = s.drop i ∧ s.drop i ≠ [] := by
  induction s with
  | nil => intro i h; simp [indexAny] at h
  | cons c rest ih =>
      intro i h
      unfold indexAny at h
      by_cases hc : isSign c = true
      · rw [if_pos hc] at h
        have hi : i = 0 := by simpa using h.symm
        subst hi
        have hcb : ¬(fun c => !isSign c) c = true := by simp [hc]
        refine ⟨?_, ?_, ?_⟩
        · rw [@List.takeWhile_cons_of_neg _ (fun c => !isSign c) c rest hcb]
          rfl
        · rw [@List.dropWhile_cons_of_neg _ (fun c => !isSign c) c rest hcb]
          rfl
        · simp
      · rw [if_neg hc] at h
        cases hr : indexAny rest with
        | none =>
            rw [hr] at h
            simp at h
        | some j =>
            rw [hr] at h
            simp only [Option.map_some', Option.some.injEq] at h
            subst h
            obtain ⟨h1, h2, h3⟩ := ih j hr
            have hcb : (fun c => !isSign c) c = true := by
              simp only [Bool.not_eq_true] at hc
              simp [hc]
            refine ⟨?_, ?_, ?_⟩
            · rw [@List.takeWhile_cons_of_pos _ (fun c => !isSign c) c rest hcb,
                List.take_succ_cons, h1]
            · rw [@List.dropWhile_cons_of_pos _ (fun c => !isSign c) c rest hcb,
                List.drop_succ_cons, h2]
            · rw [List.drop_succ_cons]
              exact h3

theorem parseSwitch_eq_anchor (init : Int) (name : List Char) (off : Int) :
    parseSwitch init name off =
      (match anchorValueOfName (name.map Char.toUpper) with
       | some a => (a + off, none)
       | none => (init, some (.unknownName name))) := by
  simp only [parseSwitch, anchorValueOfName]
  split_ifs <;> rfl

theorem parseLevel_eq_spec (init : Int) (s : List Char) :
    parseLevel init s =
      (match levelParseSpec s with
       | .ok v => (v, none)
       | .error e => (init, some e)) := by
  unfold parseLevel levelParseSpec
  cases hidx : indexAny s with
  | none =>
      obtain ⟨ht, hd⟩ := takeWhile_of_indexAny_none s hidx
      rw [ht, hd]
      show parseSwitch init s 0 = _
      rw [parseSwitch_eq_anchor]
      cases anchorValueOfName (s.map Char.toUpper) <;> rfl
  | some i =>
      obtain ⟨ht, hd, hne⟩ := take_drop_of_indexAny_some s i hidx
      rw [ht, hd]
      show (match atoi (s.drop i) with
        | none => ((init, some (ParseErr.numError s)) : Int × Option ParseErr)
        | some offset => parseSwitch init (s.take i) offset) = _
      rw [atoi_eq_parseSignedDecimal]
      cases hdrop : s.drop i with
      | nil => exact absurd hdrop hne
      | cons c rest =>
          cases hsd : parseSignedDecimal (c :: rest) with
          | none =>
              show ((init, some (ParseErr.numError s)) : Int × Option ParseErr) = _
              simp [hsd]
          | some off =>
              show parseSwitch init (s.take i) off = _
              rw [parseSwitch_eq_anchor]
              cases hav : anchorValueOfName ((s.take i).map Char.toUpper) with
              | none =>
                  show ((init, some (ParseErr.unknownName (s.take i))) :
                    Int × Option ParseErr) = _
                  simp [hsd, hav]
              | some a =>
                  show ((a + off, none) : Int × Option ParseErr) = _
                  simp [hsd, hav]

/-! ### Claim theorems -/

/-- C1: for every Level value `l` (and whatever value the destination held
before the call), parse applied to the canonical encoding of `l` succeeds
(returns no error) and yields exactly `l`. -/
theorem parse_encode_round_trip (init l : Int) :
    parseLevel init (levelString l) = (l, none) :=
  parseLevel_levelString init l

/-- C2: the encoder agrees everywhere with the specification's form — greatest
anchor `a ≤ l` (values below DEBUG's anchor select TRACE, ERROR unbounded
above), offset `l - a`, upper-case name alone exactly when the offset is zero
and otherwise name, explicit sign and decimal magnitude — and in particular
`LevelWarn - 1` encodes as INFO+3 and `LevelDebug - 2` as TRACE+2. -/
theorem encode_greatest_anchor (l : Int) :
    levelString l = levelStringSpec l ∧
      levelString (LevelWarn - 1) = "INFO+3".data ∧
      levelString (LevelDebug - 2) = "TRACE+2".data :=
  ⟨levelString_eq_spec l, by decide, by decide⟩

/-- C3: for every input string, parse splits at the first `+` or `-` into a
name segment and an offset segment (sign included, signed decimal, 0 when
absent), matches the name case-insensitively against the five anchor names and
on success yields anchor value plus offset — exactly the specification's
algorithm — and "info", "InFo" and "INFO" all parse to the same value. -/
theorem parse_split_case_insensitive (init : Int) (s : List Char) :
    parseLevel init s =
      (match levelParseSpec s with
       | .ok v => (v, none)
       | .error e => (init, some e)) ∧
      parseLevel init "info".data = (LevelInfo, none) ∧
      parseLevel init "InFo".data = (LevelInfo, none) ∧
      parseLevel init "INFO".data = (LevelInfo, none) :=
  ⟨parseLevel_eq_spec init s, rfl, rfl, rfl⟩

/-- C4 counterexample: parse "ERROR-18" succeeds with value
`LevelError - 18 = -10`, while parse "INFO" yields 0, so the two results are
different, refuting the claimed equality. -/
theorem parse_error18_counterexample :
    parseLevel 0 "ERROR-18".data = (-10, none) ∧
      parseLevel 0 "INFO".data = (0, none) ∧ (-10 : Int) ≠ 0 := by
  refine ⟨rfl, rfl, by decide⟩

/-- C4 amended: parse "ERROR-8" (not "ERROR-18") yields the same value as
parse "INFO", namely INFO's anchor 0, while parse "ERROR-18" succeeds with
`LevelError - 18`. -/
theorem parse_offset_normalization (init : Int) :
    parseLevel init "ERROR-8".data = (LevelInfo, none) ∧
      parseLevel init "INFO".data = (LevelInfo, none) ∧
      parseLevel init "ERROR-18".data = (LevelError - 18, none) :=
  ⟨rfl, rfl, rfl⟩

/-- C5: "" and "dbg" fail with the unknown-name error (carrying the unmatched
name segment, here the empty string and "dbg"), while "INFO+", "INFO-" and
"ERROR+23x" fail with the numeric parse error; in all five cases an error is
returned and the destination keeps its prior value. -/
theorem parse_malformed_errors (init : Int) :
    parseLevel init "".data = (init, some (.unknownName "".data)) ∧
      parseLevel init "dbg".data = (init, some (.unknownName "dbg".data)) ∧
      parseLevel init "INFO+".data = (init, some (.numError "INFO+".data)) ∧
      parseLevel init "INFO-".data = (init, some (.numError "INFO-".data)) ∧
      parseLevel init "ERROR+23x".data = (init, some (.numError "ERROR+23x".data)) :=
  ⟨rfl, rfl, rfl, rfl, rfl⟩

/-- C6: the structured-data marshal is exactly the encoded string wrapped in
the string-quoting convention, the unmarshal strips the quoting and delegates
to parse, and unmarshaling the marshal output restores the original value (the
first component holds for every Level value, hence for a representative of
each band and for values below TRACE's anchor). -/
theorem marshal_unmarshal_json (l init : Int) (data s : List Char) :
    marshalJSON l = goQuote (levelString l) ∧
      (goUnquote data = some s →
        unmarshalJSON init data =
          ((parseLevel init s).1, (parseLevel init s).2.map JSONErr.parseErr)) ∧
      unmarshalJSON init (marshalJSON l) = (l, none) := by
  refine ⟨rfl, ?_, ?_⟩
  · intro h
    unfold unmarshalJSON
    rw [h]
  · unfold unmarshalJSON marshalJSON
    rw [goUnquote_goQuote (levelString l) (levelString_safe l)]
    show ((parseLevel init (levelString l)).1,
      (parseLevel init (levelString l)).2.map JSONErr.parseErr) = (l, none)
    rw [parseLevel_levelString init l]
    rfl

/-- C6 witness: a concrete quoted input is unquoted and delegated to parse,
and a concrete marshal output unmarshals back to the original value. -/
theorem marshal_unmarshal_json_witness :
    goUnquote "\"INFO+1\"".data = some "INFO+1".data ∧
      unmarshalJSON 0 "\"INFO+1\"".data = (1, none) := by
  constructor
  · decide
  · have h := (marshal_unmarshal_json 1 0 "\"INFO+1\"".data "INFO+1".data).2.1
      (by decide)
    rw [h]
    decide

/-- C7: for every byte input whose quoted-string envelope is malformed, the
structured-data unmarshal returns the format error — never an unknown-name or
numeric parse error — and leaves the destination untouched. -/
theorem unmarshal_json_format_error (init : Int) (data : List Char)
    (h : goUnquote data = none) :
    unmarshalJSON init data = (init, some JSONErr.formatError) := by
  unfold unmarshalJSON
  rw [h]

/-- C7 witness: an input with no quotes at all is a malformed envelope and
yields the format error. -/
theorem unmarshal_json_format_error_witness :
    goUnquote "INFO".data = none ∧
      unmarshalJSON 0 "INFO".data = (0, some JSONErr.formatError) :=
  ⟨by decide, unmarshal_json_format_error 0 "INFO".data (by decide)⟩

/-- C8: the append-to-buffer text marshal returns the pre-existing buffer
bytes unchanged and in order, followed by exactly the encoded string and
nothing else, and the plain-text marshal is exactly the encoded string with no
quoting and no terminator. -/
theorem append_text_frame (l : Int) (b : List Char) :
    (appendText l b).take b.length = b ∧
      (appendText l b).drop b.length = levelString l ∧
      appendText l b = b ++ levelString l ∧
      marshalText l = levelString l := by
  refine ⟨?_, ?_, rfl, ?_⟩
  · show (b ++ levelString l).take b.length = b
    exact List.take_left b (levelString l)
  · show (b ++ levelString l).drop b.length = levelString l
    exact List.drop_left b (levelString l)
  · show [] ++ levelString l = levelString l
    exact List.nil_append _

/-- C9: whenever parse, the plain-text unmarshal or the structured-data
unmarshal returns an error, the destination Level holds exactly the value it
held before the call, and the returned error is determined by the input alone
(it does not depend on the prior destination value). -/
theorem parse_error_no_mutation (s : List Char) (init init' : Int) :
    ((parseLevel init s).2.isSome = true → (parseLevel init s).1 = init) ∧
      (parseLevel init s).2 = (parseLevel init' s).2 ∧
      ((unmarshalText init s).2.isSome = true → (unmarshalText init s).1 = init) ∧
      (unmarshalText init s).2 = (unmarshalText init' s).2 ∧
      ((unmarshalJSON init s).2.isSome = true → (unmarshalJSON init s).1 = init) ∧
      (unmarshalJSON init s).2 = (unmarshalJSON init' s).2 := by
  refine ⟨?_, ?_, ?_, ?_, ?_, ?_⟩
  · rw [parseLevel_eq_spec init s]
    cases levelParseSpec s <;> simp
  · rw [parseLevel_eq_spec init s, parseLevel_eq_spec init' s]
    cases levelParseSpec s <;> rfl
  · show (parseLevel init s).2.isSome = true → (parseLevel init s).1 = init
    rw [parseLevel_eq_spec init s]
    cases levelParseSpec s <;> simp
  · show (parseLevel init s).2 = (parseLevel init' s).2
    rw [parseLevel_eq_spec init s, parseLevel_eq_spec init' s]
    cases levelParseSpec s <;> rfl
  · unfold unmarshalJSON
    cases hq : goUnquote s with
    | none => simp
    | some t =>
        show ((parseLevel init t).1, (parseLevel init t).2.map JSONErr.parseErr).2.isSome
            = true →
          ((parseLevel init t).1, (parseLevel init t).2.map JSONErr.parseErr).1 = init
        rw [parseLevel_eq_spec init t]
        cases levelParseSpec t <;> simp
  · unfold unmarshalJSON
    cases hq : goUnquote s with
    | none => rfl
    | some t =>
        show ((parseLevel init t).1, (parseLevel init t).2.map JSONErr.parseErr).2 =
          ((parseLevel init' t).1, (parseLevel init' t).2.map JSONErr.parseErr).2
        rw [parseLevel_eq_spec init t, parseLevel_eq_spec init' t]
        cases levelParseSpec t <;> rfl

/-- C9 witness: on the failing input "dbg" the destination keeps its prior
value 3. -/
theorem parse_error_no_mutation_witness : (parseLevel 3 "dbg".data).1 = 3 :=
  (parse_error_no_mutation "dbg".data 3 0).1 (by decide)

/-- C10: an input starting with `+` or `-` has an empty name segment, so parse
fails with the unknown-name error carrying the empty name whenever the whole
input is a well-formed signed decimal integer, and fails in every other case
too: a Level can never be parsed from a bare numeric literal. -/
theorem parse_leading_sign_fails (c : Char) (cs : List Char) (init : Int)
    (hc : isSign c = true) :
    ((atoi (c :: cs)).isSome = true →
      parseLevel init (c :: cs) = (init, some (.unknownName []))) ∧
      (parseLevel init (c :: cs)).2 ≠ none := by
  have hidx : indexAny (c :: cs) = some 0 := by
    unfold indexAny
    rw [hc]
    simp
  constructor
  · intro hat
    unfold parseLevel
    rw [hidx]
    show (match atoi ((c :: cs).drop 0) with
      | none => ((init, some (ParseErr.numError (c :: cs))) : Int × Option ParseErr)
      | some offset => parseSwitch init ((c :: cs).take 0) offset) =
        (init, some (.unknownName []))
    obtain ⟨v, hv⟩ := Option.isSome_iff_exists.mp hat
    rw [show (c :: cs).drop 0 = c :: cs from rfl, hv]
    rfl
  · unfold parseLevel
    rw [hidx]
    show (match atoi ((c :: cs).drop 0) with
      | none => ((init, some (ParseErr.numError (c :: cs))) : Int × Option ParseErr)
      | some offset => parseSwitch init ((c :: cs).take 0) offset).2 ≠ none
    cases hat : atoi ((c :: cs).drop 0) with
    | none => simp
    | some v =>
        show (parseSwitch init [] v).2 ≠ none
        simp [parseSwitch]

/-- C10 witness: "-8" is a well-formed signed decimal yet parses to the
unknown-name failure with an empty name segment, and "+3" also fails. -/
theorem parse_leading_sign_fails_witness :
    parseLevel 0 ('-' :: "8".data) = (0, some (.unknownName [])) ∧
      (parseLevel 0 ('+' :: "3".data)).2 ≠ none :=
  ⟨(parse_leading_sign_fails '-' "8".data 0 (by decide)).1 (by decide),
    (parse_leading_sign_fails '+' "3".data 0 (by decide)).2⟩
